import Mathlib

/-!
Verification of the laser-control repository (rotation-mount PID controller).

The definitions below are a shallow embedding of the Python code in
`laser_pid-checkpoint.ipynb` (rotation-mount command API, PID control loop)
and `laser_pid_sim.ipynb` (closed-loop simulation and its recorded output).
Angles and voltages are embedded as rationals where the code is pure
arithmetic, so that every definition is executable; the PID engine of the
spec (§4.2) and the simulated plant use real numbers because their contract
mentions π/4 and cos.
-/

namespace LaserControl

/-! ## Angle codec (notebook cell "Rotation mount command API") -/

/-- `ENCODER_RESOLUTION = 43.8 * 10**(-6)` radians per encoder count. -/
def ENCODER_RESOLUTION : ℚ := 43.8 / 10 ^ 6

/-- Python `int()` applied to a real value: truncation toward zero. -/
def pyInt (q : ℚ) : ℤ := if 0 ≤ q then ⌊q⌋ else ⌈q⌉

/-- `sign_extend(value, bits)` from the notebook:
`sign_bit = 1 << (bits - 1); return (value & (sign_bit - 1)) - (value & sign_bit)`. -/
def sign_extend (value : ℕ) (bits : ℕ) : ℤ :=
  ((value &&& (1 <<< (bits - 1) - 1) : ℕ) : ℤ) - ((value &&& 1 <<< (bits - 1) : ℕ) : ℤ)

/-- The 32-bit count field computed inside `move_to` and `move_by`:
`int(angle / resolution) & 0xffffffff`.  On a Python integer, `& 0xffffffff`
is reduction modulo 2^32 into `[0, 2^32)`.  The notebook fixes
`resolution = ENCODER_RESOLUTION`; it is kept as a parameter here because the
spec's codec signature takes the resolution as an argument. -/
def angle_to_counts_wire (angle resolution : ℚ) : ℤ :=
  pyInt (angle / resolution) % 2 ^ 32

/-- The signed 32-bit count value the codec produces: the wire field read back
as two's complement (this is exactly what the device stores and what
`get_angle` recovers with `sign_extend`). -/
def angle_to_counts (angle resolution : ℚ) : ℤ :=
  sign_extend (angle_to_counts_wire angle resolution).toNat 32

/-- `counts_to_angle(counts, resolution) = counts * resolution`, as in
`get_angle`'s final multiplication by `ENCODER_RESOLUTION`. -/
def counts_to_angle (counts : ℤ) (resolution : ℚ) : ℚ :=
  (counts : ℚ) * resolution

/-- Reduction of an integer modulo 2^32 into the 32-bit two's-complement
range `[-2^31, 2^31)` (wrap, not saturate). -/
def wrap32 (n : ℤ) : ℤ :=
  (n + 2 ^ 31) % 2 ^ 32 - 2 ^ 31

/-- The spec's words for the codec (§4.1): `round(angle / resolution)`,
wrapped to 32-bit two's complement.  Stated only for comparison with
`angle_to_counts`, which is embedded from the source. -/
def angle_to_counts_spec (angle resolution : ℚ) : ℤ :=
  wrap32 (round (angle / resolution))

/-! ### Basic facts about the codec -/

theorem and_two_pow_31 (v : ℕ) : v &&& 2 ^ 31 = v / 2 ^ 31 % 2 * 2 ^ 31 := by
  rw [Nat.and_two_pow, Nat.testBit_to_div_mod]
  rcases Nat.mod_two_eq_zero_or_one (v / 2 ^ 31) with h2 | h2 <;>
    · rw [h2]
      simp

theorem sign_extend_32_closed_form (v : ℕ) (h : v < 2 ^ 32) :
    sign_extend v 32 = if v < 2 ^ 31 then (v : ℤ) else (v : ℤ) - 2 ^ 32 := by
  unfold sign_extend
  rw [Nat.one_shiftLeft, Nat.and_pow_two_sub_one_eq_mod, and_two_pow_31]
  by_cases hc : v < 2 ^ 31
  · rw [if_pos hc]
    push_cast
    omega
  · rw [if_neg hc]
    push_cast
    omega

/-- `sign_extend` at width 32 only looks at the low 32 bits of its argument. -/
theorem sign_extend_32_low_bits (v : ℕ) :
    sign_extend v 32 = sign_extend (v % 2 ^ 32) 32 := by
  unfold sign_extend
  rw [Nat.one_shiftLeft, Nat.and_pow_two_sub_one_eq_mod, Nat.and_pow_two_sub_one_eq_mod,
    and_two_pow_31, and_two_pow_31]
  push_cast
  omega

/-- The signed codec value is the truncated count reduced into the
two's-complement range. -/
theorem angle_to_counts_eq_wrap32 (angle resolution : ℚ) :
    angle_to_counts angle resolution = wrap32 (pyInt (angle / resolution)) := by
  unfold angle_to_counts angle_to_counts_wire wrap32
  have h1 : (0 : ℤ) ≤ pyInt (angle / resolution) % 2 ^ 32 :=
    Int.emod_nonneg _ (by norm_num)
  have h2 : pyInt (angle / resolution) % 2 ^ 32 < 2 ^ 32 :=
    Int.emod_lt_of_pos _ (by norm_num)
  have h3 : (pyInt (angle / resolution) % 2 ^ 32).toNat < 2 ^ 32 := by omega
  rw [sign_extend_32_closed_form _ h3]
  by_cases hc : (pyInt (angle / resolution) % 2 ^ 32).toNat < 2 ^ 31
  · rw [if_pos hc]
    omega
  · rw [if_neg hc]
    omega

/-! ## Wire frames (notebook functions move_to, move_by, go_home, get_angle, set_speed) -/

/-- One upper-case hex digit, as produced by Python `%X` formatting. -/
def hexDigitUpper (n : ℕ) : Char :=
  if n < 10 then Char.ofNat (48 + n) else Char.ofNat (55 + n)

/-- One lower-case hex digit, as produced by Python `%x` formatting. -/
def hexDigitLower (n : ℕ) : Char :=
  if n < 10 then Char.ofNat (48 + n) else Char.ofNat (87 + n)

/-- Python `"%0*?"`-style fixed-width hex formatting: exactly `w` digits,
most significant first.  Both `%08X` and `%02x` in the notebook are applied
to values strictly below `16^w`, where this agrees with Python. -/
def hexPad (digit : ℕ → Char) : ℕ → ℕ → List Char
  | 0, _ => []
  | w + 1, n => hexPad digit w (n / 16) ++ [digit (n % 16)]

/-- `move_to(angle)` transmit frame: `b'0ma%08X\r\n' % (int(angle / ENCODER_RESOLUTION) & 0xffffffff)`. -/
def move_to_frame (angle : ℚ) : List Char :=
  ['0', 'm', 'a'] ++
    hexPad hexDigitUpper 8 (angle_to_counts_wire angle ENCODER_RESOLUTION).toNat ++
    ['\r', '\n']

/-- `move_by(angle)` transmit frame: `b'0mr%08X\r\n' % (int(angle / ENCODER_RESOLUTION) & 0xffffffff)`. -/
def move_by_frame (angle : ℚ) : List Char :=
  ['0', 'm', 'r'] ++
    hexPad hexDigitUpper 8 (angle_to_counts_wire angle ENCODER_RESOLUTION).toNat ++
    ['\r', '\n']

/-- `get_angle`'s transmit frame `b'0gp\r\n'`. -/
def get_angle_cmd : List Char := ['0', 'g', 'p', '\r', '\n']

/-- `np.clip(x, lo, hi)`: `lo` if `x < lo`, `hi` if `x > hi`, else `x`. -/
def np_clip (x lo hi : ℚ) : ℚ := min (max x lo) hi

/-- `set_speed(percent)` transmit frame:
`b'0sv%02x' % int(np.clip(percent, 0, 100))` — note: lower-case hex
(`%x`) and no `\r\n` terminator in the source. -/
def set_speed_frame (percent : ℚ) : List Char :=
  ['0', 's', 'v'] ++ hexPad hexDigitLower 2 (pyInt (np_clip percent 0 100)).toNat

/-- The sixteen characters `%X` can emit: the digits and upper-case `A`..`F`. -/
def upperHexDigits : List Char := (List.range 16).map hexDigitUpper

/-- The sixteen characters `%x` can emit: the digits and lower-case `a`..`f`. -/
def lowerHexDigits : List Char := (List.range 16).map hexDigitLower

/-! ## Response parsing (notebook function get_angle)

`get_angle` recovers the position from the raw response bytes with
`sign_extend(int('0X' + str(response)[5:-5], 16) & 0xffffffff, 32) * ENCODER_RESOLUTION`.
`str(response)` is the Python repr of a bytes object: `b'...'` with `\r` and
`\n` shown as two-character escapes (the device responses consist of
printable ASCII plus CR/LF, so no other escapes arise). -/

/-- The ASCII single-quote character that delimits a Python bytes repr. -/
def quoteChar : Char := Char.ofNat 39

/-- The ASCII backslash character used in Python repr escapes. -/
def backslashChar : Char := Char.ofNat 92

/-- Python `str()` of a bytes object, for the byte values the device can
send (printable ASCII and CR/LF). -/
def pyReprBytes (bs : List Char) : List Char :=
  'b' :: quoteChar ::
    (bs.flatMap fun c =>
      if c = '\r' then [backslashChar, 'r']
      else if c = '\n' then [backslashChar, 'n']
      else [c]) ++
    [quoteChar]

/-- The Python slice `s[5:-5]`. -/
def pySlice5m5 (s : List Char) : List Char :=
  (s.take (s.length - 5)).drop 5

def isHexDigitChar (c : Char) : Bool :=
  (48 ≤ c.toNat && c.toNat ≤ 57) || (97 ≤ c.toNat && c.toNat ≤ 102) ||
    (65 ≤ c.toNat && c.toNat ≤ 70)

def hexVal (c : Char) : ℕ :=
  if c.toNat ≤ 57 then c.toNat - 48
  else if c.toNat ≤ 70 then c.toNat - 55
  else c.toNat - 87

/-- Python `int('0X' + field, 16)`: succeeds exactly when the field is a
non-empty string of hex digits (the fields arising here never contain the
underscores Python would additionally tolerate), otherwise raises
`ValueError`, modelled as `none`. -/
def parseHex (s : List Char) : Option ℕ :=
  if s ≠ [] ∧ s.all isHexDigitChar then
    some (s.foldl (fun a c => 16 * a + hexVal c) 0)
  else none

/-- The position-recovery computation of `get_angle` applied to one raw
response line: `none` models the uncaught `ValueError` from `int()`. -/
def get_angle_parse (response : List Char) : Option ℚ :=
  (parseHex (pySlice5m5 (pyReprBytes response))).map fun n =>
    (sign_extend (n % 2 ^ 32) 32 : ℚ) * ENCODER_RESOLUTION

/-- One actuation tick of the `while True` PID loop, at an instant where the
update interval has elapsed: call `get_angle` (parsing the transport's
response line), then issue `move_to(rotation_mount_angle + control)`.
Returns the transmitted `ma` frame, or `none` when `get_angle`'s parse
raises — the loop body contains no exception handler, so `none` means the
`while` loop terminates with an uncaught `ValueError`. -/
def loop_actuation_tick (response : List Char) (control : ℚ) : Option (List Char) :=
  (get_angle_parse response).map fun rotation_mount_angle =>
    move_to_frame (rotation_mount_angle + control)

/-- The absolute target angle the loop hands to `move_to`:
`rotation_mount_angle + control`, with no modulo-full-turn reduction. -/
def loop_move_target (rotation_mount_angle control : ℚ) : ℚ :=
  rotation_mount_angle + control

/-! ## Bounded PID engine

Modelled from the spec: the notebook delegates the controller computation to
the external `simple_pid` package, whose source is not part of this
repository, so the engine (`ControllerState`, `update`, §4.2 of the spec) is
embedded from the spec's own contract. -/

/-- Modelled from the spec: `ControllerState` (§3), the state owned by the
PID engine.  `output_limit` is the fixed constant π/4 (below), not a field. -/
structure ControllerState where
  setpoint : ℝ
  Kp : ℝ
  Ki : ℝ
  Kd : ℝ
  integral_accumulator : ℝ
  previous_error : ℝ
  previous_time : ℝ

/-- The spec's fixed output bound: π/4, half the period of the plant's
cos²(2·angle) response. -/
noncomputable def output_limit : ℝ := Real.pi / 4

/-- `clamp(x, lo, hi)`. -/
def clamp {α : Type} [LinearOrder α] (x lo hi : α) : α := max lo (min x hi)

/-- Modelled from the spec: `update(measurement, now)` of the Bounded PID
Engine (§4.2), absent from `src/` (the notebook calls the external
`simple_pid` package instead).  Returns the optional clamped output together
with the successor state. -/
noncomputable def update (sample_interval : ℝ) (s : ControllerState)
    (measurement now : ℝ) : Option ℝ × ControllerState :=
  if now - s.previous_time < sample_interval then (none, s)
  else
    let error := s.setpoint - measurement
    let dt := now - s.previous_time
    let integral := s.integral_accumulator + error * dt
    let derivative := if dt = 0 then 0 else (error - s.previous_error) / dt
    let raw := s.Kp * error + s.Ki * integral + s.Kd * derivative
    (some (clamp raw (-output_limit) output_limit),
      { s with
        integral_accumulator := integral
        previous_error := error
        previous_time := now })

/-! ## Closed-loop simulation (laser_pid_sim.ipynb) -/

/-- `get_voltage(rotation_mount_angle)` from the simulation notebook:
`np.cos(rotation_mount_angle * 2)**2`. -/
noncomputable def get_voltage (rotation_mount_angle : ℝ) : ℝ :=
  Real.cos (rotation_mount_angle * 2) ^ 2

/-- The simulation's setpoint voltage. -/
noncomputable def sim_setpoint : ℝ := 0.2

/-- One actuation update of the simulation loop.  With the notebook's gains
`Kp, Ki, Kd = 1, 0, 0` the controller output equals the error
`setpoint - measured_voltage` (the recorded trace shows `control = error` at
every tick), and the loop performs `rotation_mount_angle += control`. -/
noncomputable def sim_step (rotation_mount_angle : ℝ) : ℝ :=
  rotation_mount_angle + (sim_setpoint - get_voltage rotation_mount_angle)

/-- The recorded simulation output (cell output of the simulation loop),
one `(error, control, mount angle, voltage)` quadruple per printed line. -/
def sim_trace : List (ℚ × ℚ × ℚ × ℚ) :=
  [(-0.800000, -0.800000, -0.800000, 0.000853),
   (0.199147, 0.199147, -0.600853, 0.130153),
   (0.069847, 0.069847, -0.531006, 0.237282),
   (-0.037282, -0.037282, -0.568288, 0.176991),
   (0.023009, 0.023009, -0.545279, 0.213435),
   (-0.013435, -0.013435, -0.558714, 0.191840),
   (0.008160, 0.008160, -0.550554, 0.204854),
   (-0.004854, -0.004854, -0.555408, 0.197074),
   (0.002926, 0.002926, -0.552482, 0.201750),
   (-0.001750, -0.001750, -0.554232, 0.198948),
   (0.001052, 0.001052, -0.553181, 0.200631),
   (-0.000631, -0.000631, -0.553811, 0.199621),
   (0.000379, 0.000379, -0.553432, 0.200227),
   (-0.000227, -0.000227, -0.553660, 0.199864)]

/-- The error column of the recorded simulation output. -/
def sim_errors : List ℚ := sim_trace.map fun q => q.1

/-! ## Further helper lemmas -/

theorem wrap32_range (n : ℤ) : -2 ^ 31 ≤ wrap32 n ∧ wrap32 n < 2 ^ 31 := by
  unfold wrap32
  have h1 : (0 : ℤ) ≤ (n + 2 ^ 31) % 2 ^ 32 := Int.emod_nonneg _ (by norm_num)
  have h2 : (n + 2 ^ 31) % 2 ^ 32 < 2 ^ 32 := Int.emod_lt_of_pos _ (by norm_num)
  omega

theorem wrap32_eq_self (n : ℤ) (hlo : -2 ^ 31 ≤ n) (hhi : n < 2 ^ 31) :
    wrap32 n = n := by
  unfold wrap32
  omega

/-- Truncation toward zero lands within distance 1 of its argument. -/
theorem pyInt_sub_abs_lt_one (q : ℚ) : |(pyInt q : ℚ) - q| < 1 := by
  unfold pyInt
  by_cases hq : 0 ≤ q
  · rw [if_pos hq, abs_lt]
    have h1 : (⌊q⌋ : ℚ) ≤ q := Int.floor_le q
    have h2 : q - 1 < (⌊q⌋ : ℚ) := Int.sub_one_lt_floor q
    constructor <;> linarith
  · rw [if_neg hq, abs_lt]
    have h1 : q ≤ (⌈q⌉ : ℚ) := Int.le_ceil q
    have h2 : (⌈q⌉ : ℚ) < q + 1 := Int.ceil_lt_add_one q
    constructor <;> linarith

theorem hexPad_length (d : ℕ → Char) : ∀ (w n : ℕ), (hexPad d w n).length = w := by
  intro w
  induction w with
  | zero => intro n; rfl
  | succ k ih =>
      intro n
      simp [hexPad, ih]

theorem hexDigitUpper_mem (m : ℕ) (h : m < 16) : hexDigitUpper m ∈ upperHexDigits := by
  interval_cases m <;> decide

theorem hexDigitLower_mem (m : ℕ) (h : m < 16) : hexDigitLower m ∈ lowerHexDigits := by
  interval_cases m <;> decide

theorem hexPad_upper_mem : ∀ (w n : ℕ), ∀ c ∈ hexPad hexDigitUpper w n,
    c ∈ upperHexDigits := by
  intro w
  induction w with
  | zero => intro n c hc; simp [hexPad] at hc
  | succ k ih =>
      intro n c hc
      simp only [hexPad, List.mem_append, List.mem_singleton] at hc
      rcases hc with hc | hc
      · exact ih _ c hc
      · rw [hc]
        exact hexDigitUpper_mem _ (Nat.mod_lt n (by norm_num))

theorem hexPad_lower_mem : ∀ (w n : ℕ), ∀ c ∈ hexPad hexDigitLower w n,
    c ∈ lowerHexDigits := by
  intro w
  induction w with
  | zero => intro n c hc; simp [hexPad] at hc
  | succ k ih =>
      intro n c hc
      simp only [hexPad, List.mem_append, List.mem_singleton] at hc
      rcases hc with hc | hc
      · exact ih _ c hc
      · rw [hc]
        exact hexDigitLower_mem _ (Nat.mod_lt n (by norm_num))

/-! ## Claim theorems: angle codec -/

/-- C4: `sign_extend` interprets the low 32 bits of its unsigned argument as
two's complement, correctly over the whole 32-bit range (no overflow trap),
and in particular `sign_extend(0xFFFFFFFF, 32) = -1`,
`sign_extend(0x7FFFFFFF, 32) = 2147483647`, and
`sign_extend(0x80000000, 32) = -2147483648`. -/
theorem sign_extend_correct_32 :
    (∀ v : ℕ, v < 2 ^ 32 →
      sign_extend v 32 = if v < 2 ^ 31 then (v : ℤ) else (v : ℤ) - 2 ^ 32) ∧
    (∀ v : ℕ, sign_extend v 32 = sign_extend (v % 2 ^ 32) 32) ∧
    sign_extend 0xFFFFFFFF 32 = -1 ∧
    sign_extend 0x7FFFFFFF 32 = 2147483647 ∧
    sign_extend 0x80000000 32 = -2147483648 := by
  refine ⟨sign_extend_32_closed_form, sign_extend_32_low_bits, ?_, ?_, ?_⟩ <;> decide

theorem sign_extend_correct_32_witness :
    (5 : ℕ) < 2 ^ 32 ∧
      sign_extend 5 32 = if (5 : ℕ) < 2 ^ 31 then ((5 : ℕ) : ℤ) else ((5 : ℕ) : ℤ) - 2 ^ 32 :=
  ⟨by norm_num, sign_extend_correct_32.1 5 (by norm_num)⟩

theorem pyInt_three_halves : pyInt ((3 : ℚ) / 2) = 1 := by
  unfold pyInt
  rw [if_pos (by norm_num)]
  norm_num

/-- C5 counterexample: at angle 3 and resolution 2 the quotient is 1.5; the
code truncates it to 1 while the spec's `round(angle / resolution)` gives 2,
so the emitted count differs from the spec's value. -/
theorem angle_to_counts_differs_from_round :
    angle_to_counts 3 2 = 1 ∧ angle_to_counts_spec 3 2 = 2 ∧
      angle_to_counts 3 2 ≠ angle_to_counts_spec 3 2 := by
  have h2 : angle_to_counts 3 2 = 1 := by
    unfold angle_to_counts angle_to_counts_wire
    rw [pyInt_three_halves]
    decide
  have hr : round ((3 : ℚ) / 2) = 2 := by
    rw [round_eq]
    norm_num
  have h3 : angle_to_counts_spec 3 2 = 2 := by
    unfold angle_to_counts_spec
    rw [hr]
    decide
  exact ⟨h2, h3, by rw [h2, h3]; decide⟩

/-- C5 amended: for every angle and every positive resolution,
`angle_to_counts` equals the quotient truncated toward zero (Python `int()`),
not rounded, reduced modulo 2^32 into the 32-bit two's-complement range
(wrap, not saturate). -/
theorem angle_to_counts_trunc_wrapped (angle resolution : ℚ) (h : 0 < resolution) :
    angle_to_counts angle resolution = wrap32 (pyInt (angle / resolution)) ∧
      -2 ^ 31 ≤ angle_to_counts angle resolution ∧
      angle_to_counts angle resolution < 2 ^ 31 := by
  have he := angle_to_counts_eq_wrap32 angle resolution
  refine ⟨he, ?_, ?_⟩
  · rw [he]; exact (wrap32_range _).1
  · rw [he]; exact (wrap32_range _).2

theorem angle_to_counts_trunc_wrapped_witness :
    (0 : ℚ) < 2 ∧ angle_to_counts 3 2 = wrap32 (pyInt ((3 : ℚ) / 2)) :=
  ⟨by norm_num, (angle_to_counts_trunc_wrapped 3 2 (by norm_num)).1⟩

theorem pyInt_nineteen_tenths : pyInt ((19 / 10 : ℚ) / 1) = 1 := by
  unfold pyInt
  rw [if_pos (by norm_num)]
  norm_num

/-- C6 counterexample: the angle 19/10 at resolution 1 is representable
(its truncated count 1 is far inside the 32-bit range), yet the round trip
returns 1, which differs from 19/10 by 9/10 > 1/2 = resolution/2. -/
theorem roundtrip_exceeds_half_resolution :
    (-2 ^ 31 ≤ pyInt ((19 / 10 : ℚ) / 1) ∧ pyInt ((19 / 10 : ℚ) / 1) < 2 ^ 31) ∧
      (1 : ℚ) / 2 < |counts_to_angle (angle_to_counts (19 / 10) 1) 1 - 19 / 10| := by
  have h2 : angle_to_counts (19 / 10) 1 = 1 := by
    unfold angle_to_counts angle_to_counts_wire
    rw [pyInt_nineteen_tenths]
    decide
  refine ⟨⟨by rw [pyInt_nineteen_tenths]; decide, by rw [pyInt_nineteen_tenths]; decide⟩, ?_⟩
  rw [h2]
  unfold counts_to_angle
  have hv : ((1 : ℤ) : ℚ) * 1 - 19 / 10 = -(9 / 10) := by norm_num
  rw [hv, abs_neg, abs_of_nonneg (by norm_num : (0 : ℚ) ≤ 9 / 10)]
  norm_num

/-- C6 amended: for every representable angle (truncated count within the
32-bit two's-complement range) and positive resolution, the round trip
`counts_to_angle(angle_to_counts(a, r), r)` differs from `a` by less than one
full resolution step `r` (not `r/2`: the codec truncates instead of
rounding). -/
theorem roundtrip_within_resolution (a r : ℚ) (h : 0 < r)
    (hlo : -2 ^ 31 ≤ pyInt (a / r)) (hhi : pyInt (a / r) < 2 ^ 31) :
    |counts_to_angle (angle_to_counts a r) r - a| < r := by
  have he : angle_to_counts a r = pyInt (a / r) := by
    rw [angle_to_counts_eq_wrap32, wrap32_eq_self _ hlo hhi]
  rw [he]
  unfold counts_to_angle
  have hr : r ≠ 0 := ne_of_gt h
  have hq : ((pyInt (a / r) : ℚ)) * r - a = ((pyInt (a / r) : ℚ) - a / r) * r := by
    field_simp
  rw [hq, abs_mul, abs_of_pos h]
  have hd := pyInt_sub_abs_lt_one (a / r)
  calc |(pyInt (a / r) : ℚ) - a / r| * r < 1 * r := by
        exact mul_lt_mul_of_pos_right hd h
    _ = r := one_mul r

theorem roundtrip_within_resolution_witness :
    ((0 : ℚ) < 1 ∧ -2 ^ 31 ≤ pyInt ((19 / 10 : ℚ) / 1) ∧ pyInt ((19 / 10 : ℚ) / 1) < 2 ^ 31) ∧
      |counts_to_angle (angle_to_counts (19 / 10) 1) 1 - 19 / 10| < 1 :=
  ⟨⟨by norm_num, by rw [pyInt_nineteen_tenths]; decide, by rw [pyInt_nineteen_tenths]; decide⟩,
    roundtrip_within_resolution (19 / 10) 1 (by norm_num)
      (by rw [pyInt_nineteen_tenths]; decide) (by rw [pyInt_nineteen_tenths]; decide)⟩

/-! ## Claim theorems: wire protocol -/

theorem pyInt_clip_ten : pyInt (np_clip 10 0 100) = 10 := by
  unfold np_clip pyInt
  rw [max_eq_left (by norm_num : (0 : ℚ) ≤ 10), min_eq_left (by norm_num : (10 : ℚ) ≤ 100),
    if_pos (by norm_num)]
  norm_num

/-- C7 counterexample: `set_speed(10)` transmits `0sv0a` — the payload digit
`a` is lower-case hex, and the frame does not end with the `\r\n`
terminator. -/
theorem set_speed_frame_flaws :
    set_speed_frame 10 = ['0', 's', 'v', '0', 'a'] ∧
      (set_speed_frame 10).getLast? = some 'a' ∧
      'a' ∉ upperHexDigits ∧ ('a' : Char) ≠ '\n' := by
  have hf : set_speed_frame 10 = ['0', 's', 'v', '0', 'a'] := by
    unfold set_speed_frame
    rw [pyInt_clip_ten]
    decide
  exact ⟨hf, by rw [hf]; decide, by decide, by decide⟩

/-- C7 amended: the `ma`, `mr` and `gp` frames end with `\r\n` and carry
8-digit upper-case zero-padded hex payloads; the `sv` frame clamps its
percentage into 0..100 and encodes it as a 2-digit zero-padded hex byte, but
in lower case and with no `\r\n` terminator. -/
theorem frames_wire_format :
    (∀ angle : ℚ, ∃ payload,
        move_to_frame angle = ['0', 'm', 'a'] ++ payload ++ ['\r', '\n'] ∧
        payload.length = 8 ∧ ∀ c ∈ payload, c ∈ upperHexDigits) ∧
    (∀ angle : ℚ, ∃ payload,
        move_by_frame angle = ['0', 'm', 'r'] ++ payload ++ ['\r', '\n'] ∧
        payload.length = 8 ∧ ∀ c ∈ payload, c ∈ upperHexDigits) ∧
    get_angle_cmd = ['0', 'g', 'p', '\r', '\n'] ∧
    (∀ percent : ℚ, ∃ payload,
        set_speed_frame percent = ['0', 's', 'v'] ++ payload ∧
        payload.length = 2 ∧ (∀ c ∈ payload, c ∈ lowerHexDigits) ∧
        0 ≤ pyInt (np_clip percent 0 100) ∧ pyInt (np_clip percent 0 100) ≤ 100 ∧
        '\r' ∉ set_speed_frame percent ∧ '\n' ∉ set_speed_frame percent) := by
  refine ⟨?_, ?_, rfl, ?_⟩
  · intro angle
    exact ⟨_, rfl, hexPad_length _ 8 _, hexPad_upper_mem 8 _⟩
  · intro angle
    exact ⟨_, rfl, hexPad_length _ 8 _, hexPad_upper_mem 8 _⟩
  · intro percent
    have hq0 : (0 : ℚ) ≤ np_clip percent 0 100 := by
      unfold np_clip
      exact le_min (le_max_right percent 0) (by norm_num)
    have hq1 : np_clip percent 0 100 ≤ 100 := min_le_right _ _
    have hpi : pyInt (np_clip percent 0 100) = ⌊np_clip percent 0 100⌋ := by
      unfold pyInt
      rw [if_pos hq0]
    refine ⟨_, rfl, hexPad_length _ 2 _, hexPad_lower_mem 2 _, ?_, ?_, ?_, ?_⟩
    · rw [hpi]
      exact Int.floor_nonneg.2 hq0
    · rw [hpi]
      calc ⌊np_clip percent 0 100⌋ ≤ ⌊(100 : ℚ)⌋ := Int.floor_le_floor hq1
        _ = 100 := by norm_num
    · intro hmem
      unfold set_speed_frame at hmem
      rcases List.mem_append.1 hmem with hmem | hmem
      · exact absurd hmem (by decide)
      · exact absurd (hexPad_lower_mem 2 _ _ hmem) (by decide)
    · intro hmem
      unfold set_speed_frame at hmem
      rcases List.mem_append.1 hmem with hmem | hmem
      · exact absurd hmem (by decide)
      · exact absurd (hexPad_lower_mem 2 _ _ hmem) (by decide)

/-! ## Claim theorems: forward-wrap conversion and the control loop -/

theorem pyInt_first_correction :
    pyInt ((-4 / 5 : ℚ) / ENCODER_RESOLUTION) = -18264 := by
  unfold pyInt
  rw [if_neg (by norm_num [ENCODER_RESOLUTION])]
  rw [Int.ceil_eq_iff]
  constructor <;> norm_num [ENCODER_RESOLUTION]

/-- C2: with last known angle θ = 0 and requested correction δ = -0.8 (the
loop's first simulated correction), the loop issues `move_to(0 + (-0.8))`
directly: an `ma` frame whose payload `FFFFB8A8` is the two's-complement
encoding of the negative count -18264 (angle -0.8 rad).  The absolute target
is negative rather than the non-negative forward rotation
`(θ + δ) mod full_turn` demanded by the spec, and the device no-ops negative
targets by the code's own comment. -/
theorem negative_correction_issued_unwrapped :
    loop_move_target 0 (-4 / 5) = -4 / 5 ∧
    loop_actuation_tick
        ['0', 'P', 'O', '0', '0', '0', '0', '0', '0', '0', '0', '\r', '\n'] (-4 / 5)
      = some (move_to_frame (0 + (-4 / 5))) ∧
    move_to_frame (-4 / 5)
      = ['0', 'm', 'a', 'F', 'F', 'F', 'F', 'B', '8', 'A', '8', '\r', '\n'] ∧
    sign_extend 0xFFFFB8A8 32 = -18264 ∧ ((-18264 : ℤ) < 0) := by
  have hparse : get_angle_parse
      ['0', 'P', 'O', '0', '0', '0', '0', '0', '0', '0', '0', '\r', '\n'] = some 0 := by
    have hp : parseHex (pySlice5m5 (pyReprBytes
        ['0', 'P', 'O', '0', '0', '0', '0', '0', '0', '0', '0', '\r', '\n'])) = some 0 := by
      decide
    unfold get_angle_parse
    rw [hp]
    simp only [Option.map_some']
    rw [show sign_extend (0 % 2 ^ 32) 32 = 0 from by decide]
    norm_num
  have hwire : angle_to_counts_wire (-4 / 5) ENCODER_RESOLUTION = 4294949032 := by
    unfold angle_to_counts_wire
    rw [pyInt_first_correction]
    decide
  have hframe : move_to_frame (-4 / 5)
      = ['0', 'm', 'a', 'F', 'F', 'F', 'F', 'B', '8', 'A', '8', '\r', '\n'] := by
    unfold move_to_frame
    rw [hwire]
    decide
  refine ⟨by unfold loop_move_target; norm_num, ?_, hframe, by decide, by decide⟩
  unfold loop_actuation_tick
  rw [hparse]
  simp only [Option.map_some']

/-- C8: a transport read timeout makes `ser.readline()` return the empty
line; `get_angle`'s parse of it raises an uncaught ValueError, so the cycle
performs no actuation but the loop does not proceed to the next sample — it
terminates (there is no handler in the loop body). -/
theorem timeout_response_kills_tick (control : ℚ) :
    loop_actuation_tick [] control = none := by
  have hp : get_angle_parse [] = none := by
    have h : parseHex (pySlice5m5 (pyReprBytes [])) = none := by decide
    unfold get_angle_parse
    rw [h]
    rfl
  unfold loop_actuation_tick
  rw [hp]
  rfl

/-- C10 counterexample: the response `b'0PO3\r\n'` is too short to contain
an 8-hex-digit position field, yet `get_angle` does not raise — the `[5:-5]`
slice of its repr is the single digit `3`, which parses, so the tick
completes with a garbage position. -/
theorem short_nonempty_response_parses :
    (['0', 'P', 'O', '3', '\r', '\n'] : List Char).length < 13 ∧
    get_angle_parse ['0', 'P', 'O', '3', '\r', '\n'] = some (3 * ENCODER_RESOLUTION) ∧
    loop_actuation_tick ['0', 'P', 'O', '3', '\r', '\n'] 0 ≠ none := by
  have hp : parseHex (pySlice5m5 (pyReprBytes ['0', 'P', 'O', '3', '\r', '\n'])) = some 3 := by
    decide
  have hg : get_angle_parse ['0', 'P', 'O', '3', '\r', '\n']
      = some (3 * ENCODER_RESOLUTION) := by
    unfold get_angle_parse
    rw [hp]
    simp only [Option.map_some']
    rw [show sign_extend (3 % 2 ^ 32) 32 = 3 from by decide]
    norm_num
  refine ⟨by decide, hg, ?_⟩
  unfold loop_actuation_tick
  rw [hg]
  simp

/-- C10 amended: every response line whose Python repr has at most 10
characters — in particular the empty line returned after a read timeout —
produces an empty `[5:-5]` slice, so `int()` raises an uncaught ValueError
and the loop terminates; a longer but still short line may instead parse a
garbage value without raising. -/
theorem short_repr_response_kills_loop (response : List Char)
    (h : (pyReprBytes response).length ≤ 10) (control : ℚ) :
    loop_actuation_tick response control = none := by
  have hs : pySlice5m5 (pyReprBytes response) = [] := by
    unfold pySlice5m5
    apply List.drop_eq_nil_of_le
    rw [List.length_take]
    omega
  have hp : parseHex ([] : List Char) = none := by decide
  unfold loop_actuation_tick get_angle_parse
  rw [hs, hp]
  rfl

theorem short_repr_response_kills_loop_witness :
    (pyReprBytes []).length ≤ 10 ∧ loop_actuation_tick [] 0 = none :=
  ⟨by decide, short_repr_response_kills_loop [] (by decide) 0⟩

/-! ## Claim theorems: bounded PID engine (spec-modelled, §4.2) -/

theorem abs_clamp_le {L x : ℝ} (hL : 0 ≤ L) : |clamp x (-L) L| ≤ L := by
  rw [abs_le]
  constructor
  · exact le_max_left _ _
  · exact max_le (by linarith) (min_le_right _ _)

/-- C1: whenever the PID engine's `update` returns an output value, that
value is the clamp of the raw PID output into `[-output_limit, output_limit]`
with `output_limit = π/4`, so its magnitude never exceeds `output_limit`
before being handed to the actuator. -/
theorem update_output_clamped (sample_interval : ℝ) (s : ControllerState)
    (measurement now u : ℝ) (s' : ControllerState)
    (h : update sample_interval s measurement now = (some u, s')) :
    |u| ≤ output_limit ∧ output_limit = Real.pi / 4 ∧
      ∃ raw, u = clamp raw (-output_limit) output_limit := by
  have hL : (0 : ℝ) ≤ output_limit := by
    unfold output_limit
    have := Real.pi_pos
    linarith
  unfold update at h
  by_cases hc : now - s.previous_time < sample_interval
  · rw [if_pos hc] at h
    exact absurd h (by simp)
  · rw [if_neg hc] at h
    have h1 := congrArg Prod.fst h
    simp only [Option.some.injEq] at h1
    refine ⟨?_, rfl, ⟨_, h1.symm⟩⟩
    rw [← h1]
    exact abs_clamp_le hL

/-- Concrete evaluation of the spec-modelled `update` at a state with zero
gains, used to witness the engine claims. -/
theorem update_eval_example :
    update 1 ⟨0, 0, 0, 0, 0, 0, 0⟩ 0 1 = (some 0, ⟨0, 0, 0, 0, 0, 0, 1⟩) := by
  have hL : (0 : ℝ) ≤ output_limit := by
    unfold output_limit
    have := Real.pi_pos
    linarith
  unfold update clamp
  rw [if_neg (by norm_num)]
  norm_num
  rw [min_eq_left hL, max_eq_right (by linarith : -output_limit ≤ 0)]

theorem update_output_clamped_witness :
    |(0 : ℝ)| ≤ output_limit :=
  (update_output_clamped 1 ⟨0, 0, 0, 0, 0, 0, 0⟩ 0 1 0 ⟨0, 0, 0, 0, 0, 0, 1⟩
    update_eval_example).1

/-- C3: after a call to `update` that produced an output, a second call whose
timestamp is closer than `sample_interval` to the first returns no output and
leaves the state — in particular `integral_accumulator` — unchanged. -/
theorem update_sample_gating (sample_interval : ℝ) (s : ControllerState)
    (m₁ t₁ u : ℝ) (s₁ : ControllerState) (m₂ t₂ : ℝ)
    (h1 : update sample_interval s m₁ t₁ = (some u, s₁))
    (h2 : t₂ - t₁ < sample_interval) :
    update sample_interval s₁ m₂ t₂ = (none, s₁) ∧
      (update sample_interval s₁ m₂ t₂).2.integral_accumulator
        = s₁.integral_accumulator := by
  have hprev : s₁.previous_time = t₁ := by
    unfold update at h1
    by_cases hc : t₁ - s.previous_time < sample_interval
    · rw [if_pos hc] at h1
      exact absurd h1 (by simp)
    · rw [if_neg hc] at h1
      have hsnd := congrArg Prod.snd h1
      dsimp only at hsnd
      rw [← hsnd]
  have hgate : update sample_interval s₁ m₂ t₂ = (none, s₁) := by
    unfold update
    rw [if_pos (by rw [hprev]; exact h2)]
  exact ⟨hgate, by rw [hgate]⟩

theorem update_sample_gating_witness :
    update 1 (⟨0, 0, 0, 0, 0, 0, 1⟩ : ControllerState) 0 (3 / 2)
      = (none, (⟨0, 0, 0, 0, 0, 0, 1⟩ : ControllerState)) :=
  (update_sample_gating 1 ⟨0, 0, 0, 0, 0, 0, 0⟩ 0 1 0 ⟨0, 0, 0, 0, 0, 0, 1⟩ 0 (3 / 2)
    update_eval_example (by norm_num)).1

/-! ## Claim theorems: reference simulation trace -/

theorem sim_errors_eval :
    sim_errors = [-0.800000, 0.199147, 0.069847, -0.037282, 0.023009, -0.013435,
      0.008160, -0.004854, 0.002926, -0.001750, 0.001052, -0.000631,
      0.000379, -0.000227] := rfl

/-- C9 counterexample: the recorded errors after the first correction do not
alternate in sign — the second and third recorded errors, +0.199147 and
+0.069847, are both positive. -/
theorem sim_errors_alternation_fails :
    ¬ (∀ i < 13, 1 ≤ i → sim_errors.getD i 0 * sim_errors.getD (i + 1) 0 < 0) := by
  intro hall
  have h := hall 1 (by norm_num) (by norm_num)
  norm_num [sim_errors_eval, List.getD_cons_zero, List.getD_cons_succ] at h

/-- C9 amended: in the documented simulation (Kp=1, Ki=0, Kd=0,
setpoint 0.2, plant cos²(2·angle), starting angle 0) the first correction
drives the angle to exactly -0.8, where the recorded plant voltage is
0.000853; the recorded error magnitudes strictly decrease, and the errors
alternate in sign at every step except between the second and third
corrections (both positive); the error first settles within ±0.001 of the
setpoint at actuation tick 12 (within the claimed 12–14). -/
theorem sim_reference_trace :
    sim_step 0 = -(4 / 5) ∧
    ((sim_trace.getD 0 (0, 0, 0, 0)).2.2.1 = -(4 / 5) ∧
      (sim_trace.getD 0 (0, 0, 0, 0)).2.2.2 = 853 / 1000000) ∧
    (∀ i < 13, |sim_errors.getD (i + 1) 0| < |sim_errors.getD i 0|) ∧
    (∀ i < 13, i ≠ 1 → sim_errors.getD i 0 * sim_errors.getD (i + 1) 0 < 0) ∧
    ((0.001 : ℚ) < |sim_errors.getD 10 0| ∧
      ∀ i < 14, 11 ≤ i → |sim_errors.getD i 0| < 0.001) := by
  refine ⟨?_, ⟨?_, ?_⟩, ?_, ?_, ?_, ?_⟩
  · unfold sim_step get_voltage sim_setpoint
    rw [zero_mul, Real.cos_zero]
    norm_num
  · norm_num [sim_trace, List.getD_cons_zero]
  · norm_num [sim_trace, List.getD_cons_zero]
  · intro i hi
    interval_cases i <;>
      norm_num [sim_errors_eval, List.getD_cons_zero, List.getD_cons_succ, abs_of_pos]
  · intro i hi hne
    interval_cases i <;>
      first
        | exact absurd rfl hne
        | norm_num [sim_errors_eval, List.getD_cons_zero, List.getD_cons_succ]
  · norm_num [sim_errors_eval, List.getD_cons_zero, List.getD_cons_succ, abs_of_pos]
  · intro i hi hge
    interval_cases i <;>
      norm_num [sim_errors_eval, List.getD_cons_zero, List.getD_cons_succ, abs_of_pos]

end LaserControl
